import Mathlib

/-!
Shallow embedding of the QR redirect server (`src/app.py`).

State is the module-level `redirect_map` dictionary; we embed it as an
association list in insertion order, which is exactly the iteration order
of a Python dict.  Every function below is translated from the
corresponding function in `src/app.py`.
-/

set_option maxRecDepth 4000

namespace QRServer

/-- The characters removed by Python `str.strip()` for ASCII input
(space, tab, newline, carriage return, vertical tab, form feed). -/
def pyIsSpace (c : Char) : Bool :=
  c == ' ' || c == '\t' || c == '\n' || c == '\r' || c == '\x0b' || c == '\x0c'

/-- Python `str.strip()`: drop leading and trailing whitespace. -/
def pyStrip (s : String) : String :=
  ⟨((s.data.dropWhile pyIsSpace).reverse.dropWhile pyIsSpace).reverse⟩

/-- The character class `[a-zA-Z0-9_-]` kept by `_sanitize_unique_id`. -/
def isSlugChar (c : Char) : Bool :=
  ('a' ≤ c && c ≤ 'z') || ('A' ≤ c && c ≤ 'Z') || ('0' ≤ c && c ≤ '9') ||
    c == '_' || c == '-'

/-- `re.sub(r"[^a-zA-Z0-9_-]+", "-", ·)`: replace each maximal run of
characters outside the class with a single dash.  The boolean flag records
whether we are currently inside such a run. -/
def subRunsAux : List Char → Bool → List Char
  | [], _ => []
  | c :: rest, inRun =>
    if isSlugChar c then c :: subRunsAux rest false
    else if inRun then subRunsAux rest true
    else '-' :: subRunsAux rest true

/-- The full regex substitution, starting outside a run. -/
def subRuns (l : List Char) : List Char :=
  subRunsAux l false

/-- `_sanitize_unique_id` from `src/app.py`: strip, substitute runs,
fall back to `"link"` when the result is the (falsy) empty string. -/
def sanitizeUniqueId (raw_id : String) : String :=
  let cleaned : String := ⟨subRuns (pyStrip raw_id).data⟩
  if cleaned = "" then "link" else cleaned

/-- `f"{original_slug}-{suffix}"` in `_ensure_unique_slug`. -/
def slugWithSuffix (original_slug : String) (suffix : Nat) : String :=
  original_slug ++ "-" ++ Nat.repr suffix

/-- The `while redirect_slug in existing_slugs` loop of
`_ensure_unique_slug`, made structural with explicit fuel. -/
def ensureLoop (original_slug : String) (existing_slugs : List String) :
    String → Nat → Nat → String
  | cur, _, 0 => cur
  | cur, suffix, fuel + 1 =>
    if cur ∈ existing_slugs then
      ensureLoop original_slug existing_slugs
        (slugWithSuffix original_slug suffix) (suffix + 1) fuel
    else cur

/-- `_ensure_unique_slug` from `src/app.py`.  The fuel
`existing_slugs.length + 2` is proved sufficient below (the loop always
exits through its condition before the fuel runs out). -/
def ensureUniqueSlug (candidate : String) (existing_slugs : List String) : String :=
  ensureLoop candidate existing_slugs candidate 1 (existing_slugs.length + 2)

/-- The `RedirectEntry` TypedDict from `src/app.py`. -/
structure RedirectEntry where
  final_url : String
  redirect_slug : String
deriving DecidableEq

/-- The module-level `redirect_map` dict, as an association list in
insertion order. -/
abbrev RedirectMap : Type := List (String × RedirectEntry)

/-- `redirect_map.get(unique_id)`. -/
def lookupEntry (m : RedirectMap) (k : String) : Option RedirectEntry :=
  (List.find? (fun p => p.1 == k) m).map (·.2)

/-- `{entry["redirect_slug"] for entry in redirect_map.values()}`,
kept as a list in iteration order. -/
def existingSlugs (m : RedirectMap) : List String :=
  List.map (fun p => p.2.redirect_slug) m

/-- `existing_entry["final_url"] = final_url`: overwrite the
`final_url` field of the entry stored under key `k`, in place. -/
def setFinalUrl (m : RedirectMap) (k : String) (url : String) : RedirectMap :=
  List.map (fun p => if p.1 == k then (p.1, { p.2 with final_url := url }) else p) m

/-- A dynamically typed JSON-ish value, needed because `_register_redirect`
and the webhook check `final_url` for truthiness and for being a string. -/
inductive JVal where
  | jstr (s : String)
  | jnum (n : Int)
  | jbool (b : Bool)
  | jnull
deriving DecidableEq

/-- Python truthiness of a `JVal`. -/
def jtruthy : JVal → Bool
  | .jstr s => !(s == "")
  | .jnum n => !(n == 0)
  | .jbool b => b
  | .jnull => false

/-- Python `str()` applied to a `JVal` (used for `unique_id`). -/
def pyStr : JVal → String
  | .jstr s => s
  | .jnum n => n.repr
  | .jbool b => if b then "True" else "False"
  | .jnull => "None"

inductive RegStatus where
  | created
  | updated
deriving DecidableEq

/-- Result of `_register_redirect`: either a raised
`ValueError`/`TypeError` message, or the returned entry and status. -/
inductive RegOutcome where
  | err (msg : String)
  | ok (entry : RedirectEntry) (status : RegStatus)
deriving DecidableEq

/-- `_register_redirect` from `src/app.py`, as a state transformer on the
global `redirect_map`.  All `raise` statements occur before any mutation,
so the error branches return the map unchanged, exactly as the source
does. -/
def registerRedirect (m : RedirectMap) (unique_id : String) (final_url : JVal) :
    RedirectMap × RegOutcome :=
  let uid := pyStrip unique_id
  if uid = "" then (m, .err "unique_id is required")
  else if jtruthy final_url = false then (m, .err "final_url is required")
  else
    match final_url with
    | .jstr url =>
      match lookupEntry m uid with
      | some e =>
        (setFinalUrl m uid url, .ok { e with final_url := url } .updated)
      | none =>
        let redirect_slug := ensureUniqueSlug (sanitizeUniqueId uid) (existingSlugs m)
        let e : RedirectEntry := ⟨url, redirect_slug⟩
        (m ++ [(uid, e)], .ok e .created)
    | _ => (m, .err "final_url must be a string")

/-- Result of `_resolve_redirect`: a 302 redirect to a location, or a
404 JSON body. -/
inductive ResolveResult where
  | redirect302 (location : String)
  | notFound404 (error : String)
deriving DecidableEq

/-- `_resolve_redirect` from `src/app.py`: linear scan of the entries in
iteration order. -/
def resolveRedirect (m : RedirectMap) (slug : String) : ResolveResult :=
  match List.find? (fun p => p.2.redirect_slug == slug) m with
  | some p => .redirect302 p.2.final_url
  | none => .notFound404 "redirect_not_found"

/-- The JSON body of `POST /webhook` (fields may be absent). -/
structure WebhookPayload where
  unique_id : Option JVal
  final_url : Option JVal

/-- The JSON body returned by `handle_webhook` (the QR image and the
fully qualified redirect URL are produced by external libraries /
request context and are not modelled). -/
inductive WebhookResponse where
  | errorBody (error : String)
  | successBody (unique_id final_url : String) (status : RegStatus)
deriving DecidableEq

/-- `handle_webhook` from `src/app.py`, returning the new map, the HTTP
status code, and the response body. -/
def handleWebhook (m : RedirectMap) (p : WebhookPayload) :
    RedirectMap × Nat × WebhookResponse :=
  let uid := pyStrip (pyStr (p.unique_id.getD (.jstr "")))
  if uid = "" then (m, 400, .errorBody "unique_id is required")
  else
    match p.final_url with
    | none => (m, 400, .errorBody "final_url is required")
    | some v =>
      if jtruthy v = false then (m, 400, .errorBody "final_url is required")
      else
        match v with
        | .jstr s =>
          match registerRedirect m uid (.jstr s) with
          | (m', .err msg) => (m', 400, .errorBody msg)
          | (m', .ok e st) =>
            (m', if st = .created then 201 else 200,
              .successBody uid e.final_url st)
        | _ => (m, 400, .errorBody "final_url must be a string")

/-- States of the global `redirect_map` reachable from the empty map by
successful registrations. -/
inductive Reachable : RedirectMap → Prop where
  | empty : Reachable []
  | step {m m' : RedirectMap} {uid : String} {url : JVal} {e : RedirectEntry}
      {st : RegStatus} : Reachable m →
      registerRedirect m uid url = (m', .ok e st) → Reachable m'

/-!  ### Decimal rendering facts

`slugWithSuffix` uses `Nat.repr`; the loop analysis needs that distinct
suffixes give distinct slug strings, i.e. that decimal rendering is
injective.  We prove this by evaluating the rendered digits back to the
number. -/

/-- Value of a digit list read in base 10 starting from accumulator `a`. -/
def decVal (l : List Char) (a : Nat) : Nat :=
  l.foldl (fun x c => x * 10 + (c.toNat - 48)) a

theorem digitChar_toNat (d : Nat) (h : d < 10) : (Nat.digitChar d).toNat = d + 48 := by
  interval_cases d <;> rfl

theorem toDigitsCore_eq : ∀ (n fuel : Nat) (acc : List Char), n < fuel →
    Nat.toDigitsCore 10 fuel n acc = Nat.toDigits 10 n ++ acc := by
  intro n
  induction n using Nat.strong_induction_on with
  | _ n ih =>
    intro fuel acc hlt
    obtain ⟨f, rfl⟩ : ∃ f, fuel = f + 1 := ⟨fuel - 1, by omega⟩
    by_cases h10 : n / 10 = 0
    · have h1 : Nat.toDigitsCore 10 (f + 1) n acc = Nat.digitChar (n % 10) :: acc := by
        simp [Nat.toDigitsCore, h10]
      have h2 : Nat.toDigits 10 n = [Nat.digitChar (n % 10)] := by
        simp [Nat.toDigits, Nat.toDigitsCore, h10]
      rw [h1, h2]
      rfl
    · have hpos : 0 < n := by omega
      have hdiv : n / 10 < n := Nat.div_lt_self hpos (by omega)
      have h1 : Nat.toDigitsCore 10 (f + 1) n acc
          = Nat.toDigitsCore 10 f (n / 10) (Nat.digitChar (n % 10) :: acc) := by
        simp [Nat.toDigitsCore, h10]
      have h2 : Nat.toDigits 10 n
          = Nat.toDigitsCore 10 n (n / 10) [Nat.digitChar (n % 10)] := by
        simp [Nat.toDigits, Nat.toDigitsCore, h10]
      rw [h1, ih (n / 10) hdiv f _ (by omega), h2,
        ih (n / 10) hdiv n _ (by omega)]
      simp

theorem toDigits_small (n : Nat) (h : n / 10 = 0) :
    Nat.toDigits 10 n = [Nat.digitChar (n % 10)] := by
  simp [Nat.toDigits, Nat.toDigitsCore, h]

theorem toDigits_split (n : Nat) (h : ¬ n / 10 = 0) :
    Nat.toDigits 10 n = Nat.toDigits 10 (n / 10) ++ [Nat.digitChar (n % 10)] := by
  have hpos : 0 < n := by omega
  have hdiv : n / 10 < n := Nat.div_lt_self hpos (by omega)
  have h1 : Nat.toDigits 10 n
      = Nat.toDigitsCore 10 n (n / 10) [Nat.digitChar (n % 10)] := by
    simp [Nat.toDigits, Nat.toDigitsCore, h]
  rw [h1, toDigitsCore_eq (n / 10) n _ hdiv]

theorem decVal_toDigits : ∀ (n a : Nat),
    decVal (Nat.toDigits 10 n) a = a * 10 ^ (Nat.toDigits 10 n).length + n := by
  intro n
  induction n using Nat.strong_induction_on with
  | _ n ih =>
    intro a
    by_cases h10 : n / 10 = 0
    · have hlt : n < 10 := by omega
      rw [toDigits_small n h10]
      have hmod : n % 10 = n := by omega
      simp [decVal, hmod, digitChar_toNat n hlt]
    · have hpos : 0 < n := by omega
      have hdiv : n / 10 < n := Nat.div_lt_self hpos (by omega)
      rw [toDigits_split n h10]
      have hfold : decVal (Nat.toDigits 10 (n / 10) ++ [Nat.digitChar (n % 10)]) a
          = decVal (Nat.toDigits 10 (n / 10)) a * 10
              + ((Nat.digitChar (n % 10)).toNat - 48) := by
        simp [decVal, List.foldl_append]
      rw [hfold, ih (n / 10) hdiv a, digitChar_toNat (n % 10) (by omega)]
      have hdm : 10 * (n / 10) + n % 10 = n := Nat.div_add_mod n 10
      calc (a * 10 ^ (Nat.toDigits 10 (n / 10)).length + n / 10) * 10 + (n % 10 + 48 - 48)
          = a * (10 ^ (Nat.toDigits 10 (n / 10)).length * 10)
              + (10 * (n / 10) + n % 10) := by ring_nf; omega
        _ = a * 10 ^ (Nat.toDigits 10 (n / 10) ++ [Nat.digitChar (n % 10)]).length + n := by
            rw [hdm]; simp [List.length_append, pow_succ]

theorem toDigits_inj {i j : Nat} (h : Nat.toDigits 10 i = Nat.toDigits 10 j) : i = j := by
  have hi := decVal_toDigits i 0
  have hj := decVal_toDigits j 0
  rw [h] at hi
  simp at hi hj
  omega

theorem toDigits_ne_nil (n : Nat) : Nat.toDigits 10 n ≠ [] := by
  by_cases h10 : n / 10 = 0
  · rw [toDigits_small n h10]; simp
  · rw [toDigits_split n h10]; simp

theorem repr_data (n : Nat) : (Nat.repr n).data = Nat.toDigits 10 n := rfl

theorem slugWithSuffix_data (o : String) (n : Nat) :
    (slugWithSuffix o n).data = o.data ++ '-' :: Nat.toDigits 10 n := by
  show (o ++ "-" ++ Nat.repr n).data = _
  rw [String.data_append, String.data_append, repr_data]
  simp

theorem slugWithSuffix_injective (o : String) {i j : Nat}
    (h : slugWithSuffix o i = slugWithSuffix o j) : i = j := by
  have hd := congrArg String.data h
  rw [slugWithSuffix_data, slugWithSuffix_data] at hd
  have hcons := List.append_cancel_left hd
  have : Nat.toDigits 10 i = Nat.toDigits 10 j := by
    injection hcons
  exact toDigits_inj this

theorem slugWithSuffix_ne (o : String) (n : Nat) : slugWithSuffix o n ≠ o := by
  intro h
  have hd := congrArg String.data h
  rw [slugWithSuffix_data] at hd
  have hlen := congrArg List.length hd
  simp [List.length_append] at hlen

/-!  ### Correctness of the suffix-search loop -/

theorem exists_free_suffix (o : String) (slugs : List String) :
    ∃ n, 1 ≤ n ∧ n ≤ slugs.length + 1 ∧ slugWithSuffix o n ∉ slugs := by
  by_contra hall
  push_neg at hall
  have hsub : (List.range (slugs.length + 1)).map (fun k => slugWithSuffix o (k + 1))
      ⊆ slugs := by
    intro x hx
    simp only [List.mem_map, List.mem_range] at hx
    obtain ⟨k, hk, rfl⟩ := hx
    exact hall _ (by omega) (by omega)
  have hnd : ((List.range (slugs.length + 1)).map
      (fun k => slugWithSuffix o (k + 1))).Nodup := by
    refine List.Nodup.map ?_ (List.nodup_range _)
    intro a b hab
    have := slugWithSuffix_injective o hab
    omega
  have hlen := (List.subperm_of_subset hnd hsub).length_le
  simp at hlen

theorem ensureLoop_run (o : String) (slugs : List String) (N : Nat)
    (hfree : slugWithSuffix o N ∉ slugs)
    (htaken : ∀ j, 1 ≤ j → j < N → slugWithSuffix o j ∈ slugs) :
    ∀ (fuel s : Nat), 1 ≤ s → s ≤ N → N + 1 ≤ s + fuel →
      ensureLoop o slugs (slugWithSuffix o s) (s + 1) fuel = slugWithSuffix o N := by
  intro fuel
  induction fuel with
  | zero => intro s h1 h2 h3; omega
  | succ f ih =>
    intro s h1 h2 h3
    by_cases hmem : slugWithSuffix o s ∈ slugs
    · have hsN : s ≠ N := by
        rintro rfl
        exact hfree hmem
      rw [ensureLoop, if_pos hmem]
      exact ih (s + 1) (by omega) (by omega) (by omega)
    · have hsN : s = N := by
        by_contra hne
        exact hmem (htaken s h1 (by omega))
      rw [ensureLoop, if_neg hmem, hsN]

/-- With the least free suffix `N` identified, the loop started on an
already-taken candidate returns `slugWithSuffix o N` for any fuel of at
least `N + 1`. -/
theorem ensureLoop_top (o : String) (slugs : List String) (N : Nat)
    (hN : 1 ≤ N)
    (hfree : slugWithSuffix o N ∉ slugs)
    (htaken : ∀ j, 1 ≤ j → j < N → slugWithSuffix o j ∈ slugs)
    (hmem : o ∈ slugs) :
    ∀ fuel, N + 1 ≤ fuel → ensureLoop o slugs o 1 fuel = slugWithSuffix o N := by
  intro fuel hfuel
  obtain ⟨f, rfl⟩ : ∃ f, fuel = f + 1 := ⟨fuel - 1, by omega⟩
  rw [ensureLoop, if_pos hmem]
  exact ensureLoop_run o slugs N hfree htaken f 1 (by omega) hN (by omega)

theorem ensureLoop_not_mem (o : String) (slugs : List String) (hmem : o ∉ slugs) :
    ∀ fuel, 1 ≤ fuel → ensureLoop o slugs o 1 fuel = o := by
  intro fuel hfuel
  obtain ⟨f, rfl⟩ : ∃ f, fuel = f + 1 := ⟨fuel - 1, by omega⟩
  rw [ensureLoop, if_neg hmem]

/-- The least free suffix exists, is at most `slugs.length + 1`, and all
smaller positive suffixes are taken. -/
theorem least_free_suffix (o : String) (slugs : List String) :
    ∃ N, 1 ≤ N ∧ N ≤ slugs.length + 1 ∧ slugWithSuffix o N ∉ slugs ∧
      ∀ j, 1 ≤ j → j < N → slugWithSuffix o j ∈ slugs := by
  obtain ⟨n, hn1, hn2, hnfree⟩ := exists_free_suffix o slugs
  have hex : ∃ k, slugWithSuffix o (k + 1) ∉ slugs := ⟨n - 1, by
    have : n - 1 + 1 = n := by omega
    rw [this]
    exact hnfree⟩
  classical
  refine ⟨Nat.find hex + 1, by omega, ?_, Nat.find_spec hex, ?_⟩
  · have hle : Nat.find hex ≤ n - 1 := Nat.find_le (by
      have : n - 1 + 1 = n := by omega
      rw [this]
      exact hnfree)
    omega
  · intro j hj1 hj2
    have hlt : j - 1 < Nat.find hex := by omega
    have := Nat.find_min hex hlt
    have hj : j - 1 + 1 = j := by omega
    rw [hj] at this
    simpa using this

theorem ensureUniqueSlug_of_not_mem {candidate : String} {slugs : List String}
    (h : candidate ∉ slugs) : ensureUniqueSlug candidate slugs = candidate :=
  ensureLoop_not_mem candidate slugs h (slugs.length + 2) (by omega)

theorem ensureUniqueSlug_of_mem {candidate : String} {slugs : List String}
    (h : candidate ∈ slugs) :
    ∃ N, 1 ≤ N ∧ ensureUniqueSlug candidate slugs = slugWithSuffix candidate N ∧
      slugWithSuffix candidate N ∉ slugs ∧
      ∀ j, 1 ≤ j → j < N → slugWithSuffix candidate j ∈ slugs := by
  obtain ⟨N, hN1, hN2, hfree, htaken⟩ := least_free_suffix candidate slugs
  exact ⟨N, hN1,
    ensureLoop_top candidate slugs N hN1 hfree htaken h (slugs.length + 2) (by omega),
    hfree, htaken⟩

theorem ensureUniqueSlug_not_mem (candidate : String) (slugs : List String) :
    ensureUniqueSlug candidate slugs ∉ slugs := by
  by_cases h : candidate ∈ slugs
  · obtain ⟨N, _, heq, hfree, _⟩ := ensureUniqueSlug_of_mem h
    rw [heq]
    exact hfree
  · rw [ensureUniqueSlug_of_not_mem h]
    exact h

theorem ensureLoop_fuel_irrelevant (candidate : String) (slugs : List String) :
    ∀ fuel, slugs.length + 2 ≤ fuel →
      ensureLoop candidate slugs candidate 1 fuel = ensureUniqueSlug candidate slugs := by
  intro fuel hfuel
  by_cases h : candidate ∈ slugs
  · obtain ⟨N, hN1, hN2, hfree, htaken⟩ := least_free_suffix candidate slugs
    rw [ensureLoop_top candidate slugs N hN1 hfree htaken h fuel (by omega),
      ensureUniqueSlug,
      ensureLoop_top candidate slugs N hN1 hfree htaken h (slugs.length + 2) (by omega)]
  · rw [ensureLoop_not_mem candidate slugs h fuel (by omega),
      ensureUniqueSlug_of_not_mem h]

/-!  ### Registry lemmas -/

theorem existingSlugs_setFinalUrl (m : RedirectMap) (k url : String) :
    existingSlugs (setFinalUrl m k url) = existingSlugs m := by
  simp only [existingSlugs, setFinalUrl, List.map_map]
  apply List.map_congr_left
  intro p _
  by_cases hp : p.1 == k <;> simp [hp, Function.comp]

theorem existingSlugs_append (m : RedirectMap) (uid : String) (e : RedirectEntry) :
    existingSlugs (m ++ [(uid, e)]) = existingSlugs m ++ [e.redirect_slug] := by
  simp [existingSlugs]

theorem lookupEntry_eq_none_iff (m : RedirectMap) (k : String) :
    lookupEntry m k = none ↔ ∀ p ∈ m, p.1 ≠ k := by
  simp [lookupEntry, List.find?_eq_none]

theorem lookupEntry_setFinalUrl_self (m : RedirectMap) (k url : String) :
    lookupEntry (setFinalUrl m k url) k
      = (lookupEntry m k).map (fun e => { e with final_url := url }) := by
  induction m with
  | nil => rfl
  | cons p rest ih =>
    by_cases hp : p.1 == k
    · simp [setFinalUrl, lookupEntry, List.find?, hp]
    · simpa [setFinalUrl, lookupEntry, List.find?, hp] using ih

theorem lookupEntry_setFinalUrl_ne (m : RedirectMap) {k k' : String} (url : String)
    (h : k' ≠ k) : lookupEntry (setFinalUrl m k url) k' = lookupEntry m k' := by
  induction m with
  | nil => rfl
  | cons p rest ih =>
    by_cases hp : p.1 == k
    · have hpk : p.1 = k := by simpa using hp
      have hne : ¬ (p.1 == k') = true := by
        simp [hpk]
        exact fun hh => h hh.symm
      simpa [setFinalUrl, lookupEntry, List.find?, hp, hne] using ih
    · by_cases hq : p.1 == k'
      · simp [setFinalUrl, lookupEntry, List.find?, hp, hq]
      · simpa [setFinalUrl, lookupEntry, List.find?, hp, hq] using ih

theorem lookupEntry_append_ne (m : RedirectMap) {uid k' : String} (e : RedirectEntry)
    (h : k' ≠ uid) : lookupEntry (m ++ [(uid, e)]) k' = lookupEntry m k' := by
  simp only [lookupEntry, List.find?_append]
  have huk : (uid == k') = false := by
    simp only [beq_eq_false_iff_ne, ne_eq]
    exact fun hh => h hh.symm
  have hone : List.find? (fun p => p.1 == k') [(uid, e)] = none := by
    simp [List.find?, huk]
  rw [hone]
  cases List.find? (fun p => p.1 == k') m <;> rfl

theorem lookupEntry_append_self (m : RedirectMap) (uid : String) (e : RedirectEntry)
    (h : lookupEntry m uid = none) : lookupEntry (m ++ [(uid, e)]) uid = some e := by
  simp only [lookupEntry, List.find?_append]
  have hm : List.find? (fun p => p.1 == uid) m = none := by
    simpa [lookupEntry] using h
  rw [hm]
  simp [List.find?]

theorem find?_slug_setFinalUrl (m : RedirectMap) (uid url : String)
    (hnd : (existingSlugs m).Nodup) {pr : String × RedirectEntry}
    (hf : List.find? (fun p => p.1 == uid) m = some pr) :
    List.find? (fun p => p.2.redirect_slug == pr.2.redirect_slug) (setFinalUrl m uid url)
      = some (pr.1, { pr.2 with final_url := url }) := by
  induction m with
  | nil => simp at hf
  | cons p rest ih =>
    by_cases hp : p.1 == uid
    · simp only [List.find?, hp] at hf
      injection hf with hf
      subst hf
      simp [setFinalUrl, List.find?, hp]
    · have hp' : (p.1 == uid) = false := by simpa using hp
      simp only [List.find?, hp'] at hf
      have hpr : pr ∈ rest := List.mem_of_find?_eq_some hf
      have hslug : pr.2.redirect_slug ∈ existingSlugs rest := by
        simp only [existingSlugs, List.mem_map]
        exact ⟨pr, hpr, rfl⟩
      have hhead : p.2.redirect_slug ∉ existingSlugs rest := by
        have := hnd
        simp only [existingSlugs, List.map_cons, List.nodup_cons] at this
        exact this.1
      have hne : ¬ p.2.redirect_slug == pr.2.redirect_slug := by
        simp only [beq_iff_eq]
        intro hh
        exact hhead (hh ▸ hslug)
      have hnd' : (existingSlugs rest).Nodup := by
        have := hnd
        simp only [existingSlugs, List.map_cons, List.nodup_cons] at this
        exact this.2
      have hne' : (p.2.redirect_slug == pr.2.redirect_slug) = false := by
        simpa using hne
      simp only [setFinalUrl, List.map_cons, if_neg hp, List.find?, hne']
      exact ih hnd' hf

/-!  ### Case analysis of `registerRedirect` -/

theorem jtruthy_jstr {url : String} (h : url ≠ "") : jtruthy (.jstr url) = true := by
  simp [jtruthy, h]

theorem registerRedirect_updated {m : RedirectMap} {uid url : String} {e : RedirectEntry}
    (h1 : pyStrip uid ≠ "") (h2 : url ≠ "")
    (he : lookupEntry m (pyStrip uid) = some e) :
    registerRedirect m uid (.jstr url)
      = (setFinalUrl m (pyStrip uid) url, .ok { e with final_url := url } .updated) := by
  simp [registerRedirect, h1, jtruthy, h2, he]

theorem registerRedirect_created {m : RedirectMap} {uid url : String}
    (h1 : pyStrip uid ≠ "") (h2 : url ≠ "")
    (he : lookupEntry m (pyStrip uid) = none) :
    registerRedirect m uid (.jstr url)
      = (m ++ [(pyStrip uid,
            ⟨url, ensureUniqueSlug (sanitizeUniqueId (pyStrip uid)) (existingSlugs m)⟩)],
          .ok ⟨url, ensureUniqueSlug (sanitizeUniqueId (pyStrip uid)) (existingSlugs m)⟩
            .created) := by
  simp [registerRedirect, h1, jtruthy, h2, he]

theorem registerRedirect_ok_inv {m m' : RedirectMap} {uid : String} {fu : JVal}
    {e : RedirectEntry} {st : RegStatus}
    (h : registerRedirect m uid fu = (m', RegOutcome.ok e st)) :
    pyStrip uid ≠ "" ∧ ∃ url, fu = .jstr url ∧ url ≠ "" ∧ e.final_url = url ∧
      ((∃ e0, lookupEntry m (pyStrip uid) = some e0 ∧ st = .updated ∧
          e = { e0 with final_url := url } ∧ m' = setFinalUrl m (pyStrip uid) url) ∨
        (lookupEntry m (pyStrip uid) = none ∧ st = .created ∧
          e = ⟨url, ensureUniqueSlug (sanitizeUniqueId (pyStrip uid)) (existingSlugs m)⟩ ∧
          m' = m ++ [(pyStrip uid, e)])) := by
  by_cases h1 : pyStrip uid = ""
  · simp [registerRedirect, h1] at h
  · by_cases h2 : jtruthy fu = false
    · simp [registerRedirect, h1, h2] at h
    · cases fu with
      | jstr url =>
        have hurl : url ≠ "" := by simpa [jtruthy] using h2
        cases he : lookupEntry m (pyStrip uid) with
        | some e0 =>
          rw [registerRedirect_updated h1 hurl he] at h
          rw [Prod.mk.injEq] at h
          obtain ⟨hm', hok⟩ := h
          injection hok with h_e h_st
          refine ⟨h1, url, rfl, hurl, ?_, Or.inl ⟨e0, rfl, h_st.symm, h_e.symm, hm'.symm⟩⟩
          rw [← h_e]
        | none =>
          rw [registerRedirect_created h1 hurl he] at h
          rw [Prod.mk.injEq] at h
          obtain ⟨hm', hok⟩ := h
          injection hok with h_e h_st
          refine ⟨h1, url, rfl, hurl, ?_, Or.inr ⟨rfl, h_st.symm, h_e.symm, ?_⟩⟩
          · rw [← h_e]
          · rw [← hm', ← h_e]
      | jnum n => simp [registerRedirect, h1, h2] at h
      | jbool b => simp [registerRedirect, h1, h2] at h
      | jnull => exact absurd rfl h2

theorem registerRedirect_err_fst {m m' : RedirectMap} {uid : String} {fu : JVal}
    {msg : String}
    (h : registerRedirect m uid fu = (m', RegOutcome.err msg)) : m' = m := by
  by_cases h1 : pyStrip uid = ""
  · simp [registerRedirect, h1] at h
    exact h.1.symm
  · by_cases h2 : jtruthy fu = false
    · simp [registerRedirect, h1, h2] at h
      exact h.1.symm
    · cases fu with
      | jstr url =>
        have hurl : url ≠ "" := by simpa [jtruthy] using h2
        cases he : lookupEntry m (pyStrip uid) with
        | some e0 => rw [registerRedirect_updated h1 hurl he] at h; simp at h
        | none => rw [registerRedirect_created h1 hurl he] at h; simp at h
      | jnum n =>
        simp [registerRedirect, h1, h2] at h
        exact h.1.symm
      | jbool b =>
        simp [registerRedirect, h1, h2] at h
        exact h.1.symm
      | jnull => exact absurd rfl h2

/-!  ### Sanitization lemmas for C5 -/

theorem subRunsAux_all_bad_true (l : List Char) (h : ∀ c ∈ l, isSlugChar c = false) :
    subRunsAux l true = [] := by
  induction l with
  | nil => rfl
  | cons c rest ih =>
    have hc := h c (by simp)
    simp only [subRunsAux, hc]
    simp only [Bool.false_eq_true, if_false, if_pos]
    exact ih fun d hd => h d (by simp [hd])

theorem subRunsAux_all_bad_false (l : List Char) (hne : l ≠ [])
    (h : ∀ c ∈ l, isSlugChar c = false) : subRunsAux l false = ['-'] := by
  cases l with
  | nil => exact absurd rfl hne
  | cons c rest =>
    have hc := h c (by simp)
    simp only [subRunsAux, hc]
    simp only [Bool.false_eq_true, if_false]
    rw [subRunsAux_all_bad_true rest fun d hd => h d (by simp [hd])]

theorem mem_pyStrip_data {s : String} {c : Char} (h : c ∈ (pyStrip s).data) :
    c ∈ s.data := by
  simp only [pyStrip, List.mem_reverse] at h
  have h1 := (List.dropWhile_sublist pyIsSpace).subset h
  rw [List.mem_reverse] at h1
  exact (List.dropWhile_sublist pyIsSpace).subset h1

/-- C5: the claim that empty or all-punctuation input sanitizes to the
fallback `"link"` is wrong for non-whitespace punctuation: a single `"!"`
sanitizes to `"-"`, because the regex substitution turns the run into a
dash and the fallback only fires on the empty string. -/
theorem C5_counterexample :
    (∀ c ∈ "!".data, isSlugChar c = false) ∧
      sanitizeUniqueId "!" = "-" ∧ sanitizeUniqueId "!" ≠ "link" := by
  refine ⟨?_, by decide, by decide⟩
  decide

/-- C5 (amended): for input whose characters are all outside
`[A-Za-z0-9_-]`, sanitization yields `"link"` exactly when the input
strips to the empty string (it is empty or all whitespace); otherwise it
yields the single dash `"-"`. -/
theorem C5_sanitize_fallback (s : String) (hs : ∀ c ∈ s.data, isSlugChar c = false) :
    (pyStrip s = "" → sanitizeUniqueId s = "link") ∧
    (pyStrip s ≠ "" → sanitizeUniqueId s = "-") := by
  constructor
  · intro h
    have hd : (pyStrip s).data = [] := congrArg String.data h
    simp [sanitizeUniqueId, subRuns, hd, subRunsAux]
  · intro h
    have hd : (pyStrip s).data ≠ [] := by
      intro hc
      exact h (by
        cases hps : pyStrip s with
        | mk l => rw [hps] at hc; simp at hc; rw [hc])
    have hall : ∀ c ∈ (pyStrip s).data, isSlugChar c = false :=
      fun c hc => hs c (mem_pyStrip_data hc)
    have hsub : subRuns (pyStrip s).data = ['-'] :=
      subRunsAux_all_bad_false _ hd hall
    simp [sanitizeUniqueId, hsub]

/-- C5 witness: the amended statement evaluated at `""` (empty, gives
`"link"`) and `"!"` (punctuation, gives `"-"`). -/
theorem C5_witness : sanitizeUniqueId "" = "link" ∧ sanitizeUniqueId "!" = "-" :=
  ⟨(C5_sanitize_fallback "" (by decide)).1 (by decide),
    (C5_sanitize_fallback "!" (by decide)).2 (by decide)⟩

/-- C4: the claim is wrong about `"a_b"`: underscores are in the kept
character class, so `"a_b"` sanitizes to `"a_b"`, does not collide with
`"a-b"`, and receives slug `"a_b"`, not `"a-b-1"`. -/
theorem C4_counterexample :
    registerRedirect [] "a b" (.jstr "u1")
        = ([("a b", ⟨"u1", "a-b"⟩)], .ok ⟨"u1", "a-b"⟩ .created) ∧
    sanitizeUniqueId "a b" = "a-b" ∧
    sanitizeUniqueId "a_b" = "a_b" ∧
    registerRedirect [("a b", ⟨"u1", "a-b"⟩)] "a_b" (.jstr "u2")
        = ([("a b", ⟨"u1", "a-b"⟩), ("a_b", ⟨"u2", "a_b"⟩)],
            .ok ⟨"u2", "a_b"⟩ .created) ∧
    sanitizeUniqueId "a_b" ≠ sanitizeUniqueId "a b" ∧
    (⟨"u2", "a_b"⟩ : RedirectEntry).redirect_slug ≠ "a-b-1" := by
  refine ⟨by decide, by decide, by decide, by decide, by decide, by decide⟩

/-- C4 (amended): registering `unique_id="a b"` (sanitizes to `"a-b"`)
followed by any distinct id that actually sanitizes to `"a-b"` (such as
`"a.b"`, but not `"a_b"`, whose underscore is kept) produces slugs
`"a-b"` and `"a-b-1"`. -/
theorem C4_collision (uid2 : String)
    (h1 : pyStrip uid2 ≠ "a b") (h2 : pyStrip uid2 ≠ "")
    (h3 : sanitizeUniqueId (pyStrip uid2) = "a-b") :
    ∃ e2, registerRedirect [] "a b" (.jstr "u1")
        = ([("a b", ⟨"u1", "a-b"⟩)], .ok ⟨"u1", "a-b"⟩ .created) ∧
      registerRedirect [("a b", ⟨"u1", "a-b"⟩)] uid2 (.jstr "u2")
        = ([("a b", ⟨"u1", "a-b"⟩), (pyStrip uid2, e2)], .ok e2 .created) ∧
      (⟨"u1", "a-b"⟩ : RedirectEntry).redirect_slug = "a-b" ∧
      e2.redirect_slug = "a-b-1" := by
  have he : lookupEntry [("a b", ⟨"u1", "a-b"⟩)] (pyStrip uid2) = none := by
    rw [lookupEntry_eq_none_iff]
    intro p hp
    simp at hp
    rw [hp]
    exact fun hc => h1 hc.symm
  have hreg := registerRedirect_created h2 (show "u2" ≠ "" by decide) he
  rw [h3] at hreg
  have hslug : ensureUniqueSlug "a-b" (existingSlugs [("a b", ⟨"u1", "a-b"⟩)])
      = "a-b-1" := by decide
  rw [hslug] at hreg
  exact ⟨⟨"u2", "a-b-1"⟩, by decide, hreg, rfl, rfl⟩

/-- C4 witness: the amended statement evaluated at the second id
`"a.b"`, which sanitizes to `"a-b"`. -/
theorem C4_witness :
    ∃ e2, registerRedirect [] "a b" (.jstr "u1")
        = ([("a b", ⟨"u1", "a-b"⟩)], .ok ⟨"u1", "a-b"⟩ .created) ∧
      registerRedirect [("a b", ⟨"u1", "a-b"⟩)] "a.b" (.jstr "u2")
        = ([("a b", ⟨"u1", "a-b"⟩), (pyStrip "a.b", e2)], .ok e2 .created) ∧
      (⟨"u1", "a-b"⟩ : RedirectEntry).redirect_slug = "a-b" ∧
      e2.redirect_slug = "a-b-1" :=
  C4_collision "a.b" (by decide) (by decide) (by decide)

/-- C6: `_ensure_unique_slug` returns the candidate unchanged when it is
not already taken; otherwise it returns `candidate ++ "-" ++ n` for the
least positive `n` making it fresh, and the result is never a member of
the existing slugs. -/
theorem C6_ensureUnique_spec (candidate : String) (existing_slugs : List String) :
    (candidate ∉ existing_slugs →
      ensureUniqueSlug candidate existing_slugs = candidate) ∧
    (candidate ∈ existing_slugs → ∃ n, 1 ≤ n ∧
      ensureUniqueSlug candidate existing_slugs = slugWithSuffix candidate n ∧
      slugWithSuffix candidate n ∉ existing_slugs ∧
      ∀ j, 1 ≤ j → j < n → slugWithSuffix candidate j ∈ existing_slugs) ∧
    ensureUniqueSlug candidate existing_slugs ∉ existing_slugs := by
  refine ⟨fun h => ensureUniqueSlug_of_not_mem h, fun h => ?_,
    ensureUniqueSlug_not_mem _ _⟩
  obtain ⟨N, hN1, hN2, hN3, hN4⟩ := ensureUniqueSlug_of_mem h
  exact ⟨N, hN1, hN2, hN3, hN4⟩

/-- C6 witness: a fresh candidate passes through unchanged; a taken one
gets the first free suffix. -/
theorem C6_witness :
    ensureUniqueSlug "x" ["y"] = "x" ∧ ensureUniqueSlug "a-b" ["a-b"] ∉ ["a-b"] :=
  ⟨(C6_ensureUnique_spec "x" ["y"]).1 (by decide),
    (C6_ensureUnique_spec "a-b" ["a-b"]).2.2⟩

/-- C9: the suffix search always returns a value not in the (finite)
existing slugs, and the result is independent of the fuel once the fuel
is at least `existing_slugs.length + 2`: the loop exits through its
condition, never by exhaustion, so the source's unbounded `while` loop
terminates on every input. -/
theorem C9_ensureUnique_terminates (candidate : String) (existing_slugs : List String) :
    ensureUniqueSlug candidate existing_slugs ∉ existing_slugs ∧
    ∀ fuel, existing_slugs.length + 2 ≤ fuel →
      ensureLoop candidate existing_slugs candidate 1 fuel
        = ensureUniqueSlug candidate existing_slugs :=
  ⟨ensureUniqueSlug_not_mem _ _, ensureLoop_fuel_irrelevant _ _⟩

/-- C9 witness: evaluated at a taken candidate with extra fuel. -/
theorem C9_witness :
    ensureUniqueSlug "a" ["a"] ∉ ["a"] ∧
      ensureLoop "a" ["a"] "a" 1 7 = ensureUniqueSlug "a" ["a"] :=
  ⟨(C9_ensureUnique_terminates "a" ["a"]).1,
    (C9_ensureUnique_terminates "a" ["a"]).2 7 (by decide)⟩

/-- C7: `_resolve_redirect` issues a 302 redirect to a matching entry's
`final_url` exactly when some entry's `redirect_slug` equals the slug;
otherwise it returns the 404 body `{"error":"redirect_not_found"}`. -/
theorem C7_resolve_spec (m : RedirectMap) (slug : String) :
    ((∃ p ∈ m, p.2.redirect_slug = slug) →
      ∃ p ∈ m, p.2.redirect_slug = slug ∧
        resolveRedirect m slug = .redirect302 p.2.final_url) ∧
    (∀ url, resolveRedirect m slug = .redirect302 url →
      ∃ p ∈ m, p.2.redirect_slug = slug ∧ p.2.final_url = url) ∧
    ((¬ ∃ p ∈ m, p.2.redirect_slug = slug) →
      resolveRedirect m slug = .notFound404 "redirect_not_found") := by
  cases hf : List.find? (fun p => p.2.redirect_slug == slug) m with
  | none =>
    rw [List.find?_eq_none] at hf
    refine ⟨fun hex => ?_, fun url hr => ?_, fun _ => ?_⟩
    · obtain ⟨p, hp, hps⟩ := hex
      exact absurd (by simpa using hps) (by simpa using hf p hp)
    · rw [resolveRedirect] at hr
      rw [List.find?_eq_none.mpr (by simpa using hf)] at hr
      exact absurd hr (by simp)
    · rw [resolveRedirect, List.find?_eq_none.mpr (by simpa using hf)]
  | some pr =>
    have hmem : pr ∈ m := List.mem_of_find?_eq_some hf
    have hslug : pr.2.redirect_slug = slug := by
      simpa using List.find?_some hf
    have hres : resolveRedirect m slug = .redirect302 pr.2.final_url := by
      rw [resolveRedirect, hf]
    refine ⟨fun _ => ⟨pr, hmem, hslug, hres⟩, fun url hr => ?_, fun hne => ?_⟩
    · rw [hres] at hr
      injection hr with hurl
      exact ⟨pr, hmem, hslug, hurl⟩
    · exact absurd ⟨pr, hmem, hslug⟩ hne

/-- C7 witness: a hit resolves with 302 and a miss returns the 404
body, on a concrete one-entry map. -/
theorem C7_witness :
    resolveRedirect [("abc", ⟨"https://example.com", "abc"⟩)] "zzz"
        = .notFound404 "redirect_not_found" ∧
    ∃ p ∈ ([("abc", ⟨"https://example.com", "abc"⟩)] : RedirectMap),
      p.2.redirect_slug = "abc" ∧
        resolveRedirect [("abc", ⟨"https://example.com", "abc"⟩)] "abc"
          = .redirect302 p.2.final_url :=
  ⟨(C7_resolve_spec [("abc", ⟨"https://example.com", "abc"⟩)] "zzz").2.2 (by decide),
    (C7_resolve_spec [("abc", ⟨"https://example.com", "abc"⟩)] "abc").1 (by decide)⟩

/-!  ### Invariant preservation and the remaining claims -/

theorem register_preserves_slug_nodup {m m' : RedirectMap} {uid : String} {fu : JVal}
    {out : RegOutcome} (hnd : (existingSlugs m).Nodup)
    (h : registerRedirect m uid fu = (m', out)) : (existingSlugs m').Nodup := by
  cases out with
  | err msg =>
    rw [registerRedirect_err_fst h]
    exact hnd
  | ok e st =>
    obtain ⟨h1, url, rfl, hurl, hfu, hcase⟩ := registerRedirect_ok_inv h
    rcases hcase with ⟨e0, he, hst, hee, rfl⟩ | ⟨he, hst, rfl, rfl⟩
    · rw [existingSlugs_setFinalUrl]
      exact hnd
    · rw [existingSlugs_append]
      have hfresh := ensureUniqueSlug_not_mem
        (sanitizeUniqueId (pyStrip uid)) (existingSlugs m)
      simp [List.nodup_append, hnd]
      exact hfresh

/-- C1: starting from the empty registry, after every sequence of
successful registrations no two entries share a `redirect_slug`: the
slug list of any reachable map has no duplicates. -/
theorem C1_reachable_slug_nodup {m : RedirectMap} (h : Reachable m) :
    (existingSlugs m).Nodup := by
  induction h with
  | empty => simp [existingSlugs]
  | step hr hreg ih => exact register_preserves_slug_nodup ih hreg

/-- C1 witness: a two-step reachable registry (two colliding ids) has
pairwise distinct slugs. -/
theorem C1_witness :
    (existingSlugs [("a b", ⟨"u1", "a-b"⟩), ("a.b", ⟨"u2", "a-b-1"⟩)]).Nodup :=
  C1_reachable_slug_nodup
    (@Reachable.step [("a b", ⟨"u1", "a-b"⟩)]
      [("a b", ⟨"u1", "a-b"⟩), ("a.b", ⟨"u2", "a-b-1"⟩)]
      "a.b" (.jstr "u2") ⟨"u2", "a-b-1"⟩ .created
      (@Reachable.step [] [("a b", ⟨"u1", "a-b"⟩)]
        "a b" (.jstr "u1") ⟨"u1", "a-b"⟩ .created
        Reachable.empty (by decide))
      (by decide))

/-- C2: on a registry whose slugs are distinct (the C1 invariant), any
registration with a non-empty trimmed id and non-empty URL succeeds, and
resolving the returned entry's slug 302-redirects to exactly the
registered `final_url`. -/
theorem C2_register_resolve (m : RedirectMap) (uid url : String)
    (hnd : (existingSlugs m).Nodup) (h1 : pyStrip uid ≠ "") (h2 : url ≠ "") :
    ∃ m' e st, registerRedirect m uid (.jstr url) = (m', .ok e st) ∧
      e.final_url = url ∧
      resolveRedirect m' e.redirect_slug = .redirect302 url := by
  cases he : lookupEntry m (pyStrip uid) with
  | some e0 =>
    refine ⟨_, _, _, registerRedirect_updated h1 h2 he, rfl, ?_⟩
    obtain ⟨pr, hf, hpr⟩ : ∃ pr, List.find? (fun p => p.1 == pyStrip uid) m = some pr
        ∧ pr.2 = e0 := by
      simp only [lookupEntry, Option.map_eq_some'] at he
      obtain ⟨pr, hf, hpr⟩ := he
      exact ⟨pr, hf, hpr⟩
    have hfind := find?_slug_setFinalUrl m (pyStrip uid) url hnd hf
    rw [resolveRedirect]
    rw [show ({ e0 with final_url := url } : RedirectEntry).redirect_slug
      = pr.2.redirect_slug by rw [hpr]]
    rw [hfind]
  | none =>
    refine ⟨_, _, _, registerRedirect_created h1 h2 he, rfl, ?_⟩
    have hfresh := ensureUniqueSlug_not_mem
      (sanitizeUniqueId (pyStrip uid)) (existingSlugs m)
    rw [resolveRedirect]
    rw [List.find?_append]
    have hnone : List.find? (fun p => p.2.redirect_slug
        == ensureUniqueSlug (sanitizeUniqueId (pyStrip uid)) (existingSlugs m)) m
          = none := by
      rw [List.find?_eq_none]
      intro p hp
      simp only [beq_iff_eq]
      intro hc
      exact hfresh (hc ▸ List.mem_map.mpr ⟨p, hp, rfl⟩)
    rw [hnone]
    simp [List.find?]

/-- C2 witness: the spec's round-trip example, registering
`unique_id="abc"`, `final_url="https://example.com"` on the empty
registry and resolving the returned slug. -/
theorem C2_witness :
    ∃ m' e st, registerRedirect [] "abc" (.jstr "https://example.com")
        = (m', .ok e st) ∧
      e.final_url = "https://example.com" ∧
      resolveRedirect m' e.redirect_slug = .redirect302 "https://example.com" :=
  C2_register_resolve [] "abc" "https://example.com" (by decide) (by decide) (by decide)

/-- C3: registering an id that already has an entry (with valid inputs)
overwrites that entry's `final_url` in place, keeps the stored
`redirect_slug` untouched (it is never regenerated), and returns status
`"updated"`. -/
theorem C3_register_update (m : RedirectMap) (uid url : String) {e : RedirectEntry}
    (he : lookupEntry m (pyStrip uid) = some e)
    (h1 : pyStrip uid ≠ "") (h2 : url ≠ "") :
    registerRedirect m uid (.jstr url)
        = (setFinalUrl m (pyStrip uid) url,
            .ok { e with final_url := url } .updated) ∧
      ({ e with final_url := url }).redirect_slug = e.redirect_slug ∧
      lookupEntry (setFinalUrl m (pyStrip uid) url) (pyStrip uid)
        = some { e with final_url := url } := by
  refine ⟨registerRedirect_updated h1 h2 he, rfl, ?_⟩
  rw [lookupEntry_setFinalUrl_self, he]
  rfl

/-- C3 witness: re-registering `"abc"` with a new URL updates in place
and keeps slug `"abc"`. -/
theorem C3_witness :
    registerRedirect [("abc", ⟨"https://old.example", "abc"⟩)] "abc"
          (.jstr "https://new.example")
        = (setFinalUrl [("abc", ⟨"https://old.example", "abc"⟩)] (pyStrip "abc")
              "https://new.example",
            .ok ⟨"https://new.example", "abc"⟩ .updated) ∧
      (⟨"https://new.example", "abc"⟩ : RedirectEntry).redirect_slug = "abc" ∧
      lookupEntry (setFinalUrl [("abc", ⟨"https://old.example", "abc"⟩)]
            (pyStrip "abc") "https://new.example") (pyStrip "abc")
        = some ⟨"https://new.example", "abc"⟩ :=
  C3_register_update [("abc", ⟨"https://old.example", "abc"⟩)] "abc"
    "https://new.example" (e := ⟨"https://old.example", "abc"⟩)
    (by decide) (by decide) (by decide)

/-- C10: a successful registration leaves every entry keyed by a
different id untouched and removes nothing: on the updated path the
entry count is unchanged and only the keyed entry's `final_url` changes;
on the created path exactly one new entry is appended. -/
theorem C10_register_frame {m m' : RedirectMap} {uid : String} {fu : JVal}
    {e : RedirectEntry} {st : RegStatus}
    (h : registerRedirect m uid fu = (m', .ok e st)) :
    (∀ k, k ≠ pyStrip uid → lookupEntry m' k = lookupEntry m k) ∧
    (st = .updated → m'.length = m.length ∧
      ∃ e0, lookupEntry m (pyStrip uid) = some e0 ∧
        e.redirect_slug = e0.redirect_slug ∧
        lookupEntry m' (pyStrip uid) = some { e0 with final_url := e.final_url }) ∧
    (st = .created → m'.length = m.length + 1 ∧
      lookupEntry m (pyStrip uid) = none ∧
      lookupEntry m' (pyStrip uid) = some e) := by
  obtain ⟨h1, url, rfl, hurl, hfu, hcase⟩ := registerRedirect_ok_inv h
  rcases hcase with ⟨e0, he, hst, hee, rfl⟩ | ⟨he, hst, hee, rfl⟩
  · subst hst hee
    refine ⟨fun k hk => lookupEntry_setFinalUrl_ne m url hk,
      fun _ => ⟨by simp [setFinalUrl], e0, he, rfl, ?_⟩,
      fun hc => absurd hc (by decide)⟩
    rw [lookupEntry_setFinalUrl_self, he]
    rfl
  · subst hst hee
    refine ⟨fun k hk => lookupEntry_append_ne m _ hk,
      fun hc => absurd hc (by decide),
      fun _ => ⟨by simp, he, lookupEntry_append_self m _ _ he⟩⟩

/-- C10 witness: creating a fresh entry leaves an unrelated key's lookup
unchanged, grows the map by one, and stores the new entry. -/
theorem C10_witness :
    lookupEntry [("abc", ⟨"u", "abc"⟩)] "zzz" = lookupEntry [] "zzz" ∧
      ([("abc", ⟨"u", "abc"⟩)] : RedirectMap).length
        = ([] : RedirectMap).length + 1 ∧
      lookupEntry [("abc", ⟨"u", "abc"⟩)] "abc" = some ⟨"u", "abc"⟩ := by
  have h := @C10_register_frame [] [("abc", ⟨"u", "abc"⟩)] "abc" (.jstr "u")
    ⟨"u", "abc"⟩ .created (by decide)
  exact ⟨h.1 "zzz" (by decide), (h.2.2 rfl).1, (h.2.2 rfl).2.2⟩

/-- C8: every validation failure happens before any state mutation: a
raised `ValueError`/`TypeError` in `_register_redirect` leaves the
registry exactly as it was, and a webhook request answered with 400
creates or changes no entry. -/
theorem C8_validation_no_mutation (m : RedirectMap) :
    (∀ uid fu m' msg,
      registerRedirect m uid fu = (m', RegOutcome.err msg) → m' = m) ∧
    (∀ p m' code resp, handleWebhook m p = (m', code, resp) → code = 400 → m' = m) := by
  refine ⟨fun uid fu m' msg h => registerRedirect_err_fst h,
    fun p m' code resp h hc => ?_⟩
  by_cases h1 : pyStrip (pyStr (p.unique_id.getD (.jstr ""))) = ""
  · simp [handleWebhook, h1] at h
    exact h.1.symm
  · cases hfu : p.final_url with
    | none =>
      simp [handleWebhook, h1, hfu] at h
      exact h.1.symm
    | some v =>
      by_cases h2 : jtruthy v = false
      · simp [handleWebhook, h1, hfu, h2] at h
        exact h.1.symm
      · cases v with
        | jstr s =>
          rcases hreg : registerRedirect m
              (pyStrip (pyStr (p.unique_id.getD (.jstr "")))) (.jstr s) with ⟨m'', out⟩
          cases out with
          | err msg =>
            simp [handleWebhook, h1, hfu, h2, hreg] at h
            rw [← h.1]
            exact registerRedirect_err_fst hreg
          | ok e st =>
            simp [handleWebhook, h1, hfu, h2, hreg] at h
            cases st with
            | created => simp at h; omega
            | updated => simp at h; omega
        | jnum n =>
          simp [handleWebhook, h1, hfu, h2] at h
          exact h.1.symm
        | jbool b =>
          simp [handleWebhook, h1, hfu, h2] at h
          exact h.1.symm
        | jnull => exact absurd rfl h2

/-- C8 witness: a whitespace-only id raises before mutating, and a
webhook payload missing `final_url` gets a 400 while the registry stays
intact. -/
theorem C8_witness :
    handleWebhook [("a", ⟨"u", "a"⟩)] ⟨some (.jstr "x"), none⟩
        = ([("a", ⟨"u", "a"⟩)], 400, .errorBody "final_url is required") ∧
      registerRedirect [] " " JVal.jnull = ([], .err "unique_id is required") ∧
      ([("a", ⟨"u", "a"⟩)] : RedirectMap) = [("a", ⟨"u", "a"⟩)] ∧
      ([] : RedirectMap) = [] :=
  ⟨by decide, by decide,
    (C8_validation_no_mutation [("a", ⟨"u", "a"⟩)]).2 ⟨some (.jstr "x"), none⟩
      [("a", ⟨"u", "a"⟩)] 400 (.errorBody "final_url is required") (by decide) rfl,
    (C8_validation_no_mutation []).1 " " JVal.jnull [] "unique_id is required"
      (by decide)⟩

end QRServer
